import Mathlib

/-!
Verification of the `next-actionize` form library: a shallow embedding of
`createServerAction` (src/lib/createAction.ts) and the `useActionize` hook
(useActionize.ts), together with proofs of the specified properties.

JavaScript values at the form boundary are modelled by `JSValue`; the zod
validation engine is the external collaborator consumed as a capability
(spec §1): an object schema is a shape mapping field names to field
validators, where a field validator reports a list of issues (empty list =
success) with paths relative to the field, and whole-object parsing runs
every field validator on the corresponding property (missing properties are
`undefined`) prefixing each issue's path with the field name, exactly as a
default (strip-mode) zod object does.  React's `useTransition` is the
external cooperative-transition primitive: its pending flag is true from
the start of the submitted async work until it settles.
-/

namespace Actionize

/-- A JavaScript value as it appears at the validation boundary: a string
(field values, `FormData` entries), a number (possible in the `Record
String Any` passed to `executeAction`), or `undefined` (missing object
property). -/
inductive JSValue where
  | str (s : String)
  | num (n : Int)
  | undefinedV
deriving DecidableEq, Repr

/-- JavaScript `String(value)` coercion, used when `executeAction` appends
entries of its `data` argument to the synthetic `FormData`. -/
def jsString : JSValue → String
  | .str s => s
  | .num n => toString n
  | .undefinedV => "undefined"

/-- One zod validation issue: a path (relative to the value handed to the
validator), a message and a code. -/
structure Issue where
  path : List String
  message : String
  code : String
deriving DecidableEq, Repr

/-- A single-field validator capability: `check v` returns the list of
issues (`[]` means the value parses). -/
structure FieldValidator where
  check : JSValue → List Issue

/-- An object-shaped zod schema: an ordered shape assigning each field name
its validator (default strip-mode object, as `useActionize` requires). -/
structure Schema where
  shape : List (String × FieldValidator)

/-- Property lookup in `schema.shape` (JS object property access; shape
keys are unique in a JS object literal). -/
def Schema.shapeLookup (sch : Schema) (name : String) : Option FieldValidator :=
  sch.shape.lookup name

/-- The schema's field names. -/
def Schema.fieldNames (sch : Schema) : List String :=
  sch.shape.map (·.1)

/-- Prefix an issue's path with a field name, as zod object parsing does
when it reports a field validator's issue. -/
def prependPath (n : String) (i : Issue) : Issue :=
  { i with path := n :: i.path }

/-- Whole-object validation: run every field validator of the shape on the
corresponding property of the mapping (a function from property name to
value, `undefined` when absent) and collect the issues, each path prefixed
with its field name.  `schema.parse(data)` succeeds iff this list is empty
and throws a `ZodError` carrying it otherwise. -/
def Schema.parseIssues (sch : Schema) (get : String → JSValue) : List Issue :=
  sch.shape.flatMap fun p => (p.2.check (get p.1)).map (prependPath p.1)

/-- Last-wins lookup in a key/value list: JS semantics of reading a
property of an object built by repeated assignment (`Object.fromEntries`
keeps the last entry of a duplicated key). -/
def lastLookup : List (String × α) → String → Option α
  | [], _ => none
  | p :: ps, k =>
    match lastLookup ps k with
    | some v => some v
    | none => if p.1 = k then some p.2 else none

/-- JS `Object.fromEntries(formData.entries())`: the mapping read off a
`FormData` entry list, with absent keys `undefined` and duplicate keys
resolved last-wins. -/
def fromEntries (l : List (String × String)) (k : String) : JSValue :=
  match lastLookup l k with
  | some s => .str s
  | none => .undefinedV

/-- The mapping read off a plain JS record given as an entry list (absent
keys are `undefined`). -/
def recordGet (l : List (String × JSValue)) (k : String) : JSValue :=
  (lastLookup l k).getD .undefinedV

/-- JS `a || b` on strings: `b` when `a` is the empty string (falsy). -/
def jsOr (a b : String) : String :=
  if a = "" then b else a

/-- The hook's `FieldError`: `{message, type}`. -/
structure FieldError where
  message : String
  type : String
deriving DecidableEq, Repr

/-- The `errors` state cell: a JS object mapping field names to
`FieldError`s, modelled as a key/value list with unique keys. -/
abbrev Errors := List (String × FieldError)

/-- JS `delete obj[k]` on the errors object. -/
def eraseKey (l : Errors) (k : String) : Errors :=
  l.filter fun p => !decide (p.1 = k)

/-- JS `obj[k] = v` on the errors object (overwrites an existing entry). -/
def setKey (l : Errors) (k : String) (v : FieldError) : Errors :=
  eraseKey l k ++ [(k, v)]

/-- Reading `errors[name]`, the hook's `getFieldError(name)`. -/
def getFieldError (l : Errors) (name : String) : Option FieldError :=
  lastLookup l name

/-- The keys of the errors object. -/
def errorKeys (l : Errors) : List String :=
  l.map (·.1)

/-- The function `validateField(name, value)` of `useActionize`: look up
`schema.shape?.[name]`; if absent do nothing; otherwise run the field
validator on the value — on success delete the field's error entry, on
failure store the first issue's message (`|| "Invalid value"`) and code
(`|| "invalid"`) as that field's error. -/
def validateField (sch : Schema) (name : String) (value : JSValue)
    (errors : Errors) : Errors :=
  match sch.shapeLookup name with
  | none => errors
  | some fv =>
    match fv.check value with
    | [] => eraseKey errors name
    | i :: _ => setKey errors name ⟨jsOr i.message "Invalid value", jsOr i.code "invalid"⟩

/-- The controller's client-side state cells: `formData`, `errors`,
`touchedFields`. -/
structure HookState where
  formData : List (String × String)
  errors : Errors
  touched : List String
deriving DecidableEq

/-- The fresh controller state: `{}` / `{}` / empty set. -/
def initState : HookState :=
  ⟨[], [], []⟩

/-- JS `new Set(prev).add(name)`: set insertion, idempotent. -/
def addTouched (t : List String) (n : String) : List String :=
  if n ∈ t then t else t ++ [n]

/-- The `onChange` handler of `register(name)` at input value `value`
(`e.target.value`, always a string): overwrite `formData[name]`, and
re-validate the field only when it is already touched. -/
def onChange (sch : Schema) (name value : String) (st : HookState) : HookState :=
  { st with
    formData := st.formData.filter (fun p => p.1 ≠ name) ++ [(name, value)],
    errors := if name ∈ st.touched then validateField sch name (.str value) st.errors
              else st.errors }

/-- The `onBlur` handler of `register(name)` at input value `value`: add
the field to the touched set, then unconditionally re-validate it.
(`formData` is not written by `onBlur`.) -/
def onBlur (sch : Schema) (name value : String) (st : HookState) : HookState :=
  { st with
    touched := addTouched st.touched name,
    errors := validateField sch name (.str value) st.errors }

/-- A JavaScript error value at this boundary: a `ZodError` carrying its
issues, or an ordinary `Error` with a message, or any other thrown value. -/
inductive JSError where
  | zodError (issues : List Issue)
  | error (message : String)
  | other (tag : String)
deriving DecidableEq, Repr

deriving instance DecidableEq for Except

/-- JS `error.issues.map(issue => issue.message).join(", ")`. -/
def joinMessages (issues : List Issue) : String :=
  String.intercalate ", " (issues.map Issue.message)

/-- The function `createServerAction(schema, handler)` applied to `(prevState,
formData)`, instrumented with whether `handler` was invoked: convert the
entry list to a mapping, `schema.parse` it; inside the same `try`, invoke
the handler on the parsed data.  The `catch` turns any `ZodError` — from
`parse` or from the handler — into `new Error(messages joined by ", ")`
and rethrows every other error unchanged.  (`prevState` is ignored by the
body.) -/
def createServerActionRun (sch : Schema) (handler : (String → JSValue) → Except JSError α)
    (raw : List (String × String)) : Except JSError α × Bool :=
  let data := fromEntries raw
  match sch.parseIssues data with
  | [] =>
    match handler data with
    | .ok v => (.ok v, true)
    | .error (.zodError issues) => (.error (.error (joinMessages issues)), true)
    | .error e => (.error e, true)
  | i :: is => (.error (.error (joinMessages (i :: is))), false)

/-- The action returned by `createServerAction`: the result of the run
(first component of the instrumented form). -/
def createServerAction (sch : Schema) (handler : (String → JSValue) → Except JSError α)
    (_prevState : β) (raw : List (String × String)) : Except JSError α :=
  (createServerActionRun sch handler raw).1

/-- The observable outcome of one submission-path call (`formAction` or
`executeAction`): the errors cell after the call settles, whether a
transition was started and the transition primitive's pending flag while
the submitted work ran and after it settled (React `useTransition`:
pending is true from transition start to settle), whether `action` was
invoked, and the arguments of the `onSuccess` / `onError` calls made. -/
structure SubmitResult (α : Type) where
  errors : Errors
  transitionStarted : Bool
  pendingDuring : Bool
  pendingAfter : Bool
  actionInvoked : Bool
  successCalls : List α
  errorCalls : List JSError
deriving DecidableEq

/-- The body passed to `startTransition` by both submission paths: await
`action(state, formData)` (its settling is the parameter `outcome`); on
fulfillment call `onSuccess(result)` if provided, on rejection call
`onError(error)` if provided. -/
def transitionCalls (hasOnSuccess hasOnError : Bool) (outcome : Except JSError α) :
    List α × List JSError :=
  match outcome with
  | .ok v => (if hasOnSuccess then [v] else [], [])
  | .error e => ([], if hasOnError then [e] else [])

/-- One iteration of `enhancedFormAction`'s `error.issues.forEach`: key
the issue by `issue.path[0]?.toString()` and drop it when that is falsy
(missing path, or the empty string); otherwise store
`{message: issue.message, type: issue.code}`, overwriting any earlier
issue of the same field. -/
def addIssue (acc : Errors) (i : Issue) : Errors :=
  match i.path with
  | [] => acc
  | n :: _ => if n = "" then acc else setKey acc n ⟨i.message, i.code⟩

/-- The `fieldErrors` object built by `enhancedFormAction`'s catch branch from the
`ZodError`'s issues. -/
def formFieldErrors (issues : List Issue) : Errors :=
  issues.foldl addIssue []

/-- The field name an issue resolves to on the `formAction` path: its
first path segment, unless the path is empty or that segment is the empty
string (falsy), in which case the issue is dropped. -/
def resolvedField (i : Issue) : Option String :=
  match i.path with
  | [] => none
  | n :: _ => if n = "" then none else some n

/-- The function `enhancedFormAction(formDataObj)` (returned as `formAction`), at a
given current errors cell, with the eventual settling of
`action(state, formDataObj)` as parameter `outcome`:
`schema.parse(Object.fromEntries(formDataObj.entries()))`; on success set
`errors` to `{}` and start a transition running the action and callbacks;
on `ZodError` replace `errors` with the per-field map and do nothing
else. -/
def enhancedFormAction (sch : Schema) (hasOnSuccess hasOnError : Bool)
    (_errors0 : Errors) (raw : List (String × String))
    (outcome : Except JSError α) : SubmitResult α :=
  match sch.parseIssues (fromEntries raw) with
  | [] =>
    let calls := transitionCalls hasOnSuccess hasOnError outcome
    { errors := []
      transitionStarted := true
      pendingDuring := true
      pendingAfter := false
      actionInvoked := true
      successCalls := calls.1
      errorCalls := calls.2 }
  | i :: is =>
    { errors := formFieldErrors (i :: is)
      transitionStarted := false
      pendingDuring := false
      pendingAfter := false
      actionInvoked := false
      successCalls := []
      errorCalls := [] }

/-- The synthetic `FormData` built by `executeAction(data)`: the entries
of `data` in order, each value coerced with `String(value)`. -/
def syntheticFormData (data : List (String × JSValue)) : List (String × String) :=
  data.map fun p => (p.1, jsString p.2)

/-- The issues of `schema.parse(dataToSubmit)` in `executeAction`, where
`dataToSubmit = data || formData`: validation runs on the RAW `data`
record when one is given (not on the stringified synthetic `FormData`,
which is only what the action later receives), and on the fresh empty
`FormData` (an object with no own properties: every field reads
`undefined`) when it is not. -/
def executeValidationIssues (sch : Schema) (data : Option (List (String × JSValue))) :
    List Issue :=
  match data with
  | some d => sch.parseIssues (recordGet d)
  | none => sch.parseIssues (fun _ => .undefinedV)

/-- The function `executeAction(data?)` at a given current errors cell, with the
eventual settling of `action(state, formData)` as parameter `outcome`.
On validation success (see `executeValidationIssues`) start the
transition; on `ZodError` call `onError(new Error(messages joined by
", "))` if provided.  The errors cell is never written on either
branch. -/
def executeAction (sch : Schema) (hasOnSuccess hasOnError : Bool)
    (errors0 : Errors) (data : Option (List (String × JSValue)))
    (outcome : Except JSError α) : SubmitResult α :=
  match executeValidationIssues sch data with
  | [] =>
    let calls := transitionCalls hasOnSuccess hasOnError outcome
    { errors := errors0
      transitionStarted := true
      pendingDuring := true
      pendingAfter := false
      actionInvoked := true
      successCalls := calls.1
      errorCalls := calls.2 }
  | i :: is =>
    { errors := errors0
      transitionStarted := false
      pendingDuring := false
      pendingAfter := false
      actionInvoked := false
      successCalls := []
      errorCalls := if hasOnError then [.error (joinMessages (i :: is))] else [] }

/-- One externally triggered event on a controller instance: a field
change or blur (through the handlers of `register`), a form submission
(`formAction`), or a programmatic submission (`executeAction`); the
submission events carry the settling of the submitted action. -/
inductive Event (α : Type) where
  | change (name value : String)
  | blur (name value : String)
  | formSubmit (raw : List (String × String)) (outcome : Except JSError α)
  | execute (data : Option (List (String × JSValue))) (outcome : Except JSError α)

/-- The effect of one event on the controller's state cells.  The
transition continuations only invoke the caller's callbacks; neither
submission path's continuation writes `formData`, `errors` or
`touched`. -/
def step (sch : Schema) (hasOnSuccess hasOnError : Bool)
    (st : HookState) : Event α → HookState
  | .change n v => onChange sch n v st
  | .blur n v => onBlur sch n v st
  | .formSubmit raw outcome =>
    { st with errors := (enhancedFormAction sch hasOnSuccess hasOnError st.errors raw outcome).errors }
  | .execute data outcome =>
    { st with errors := (executeAction sch hasOnSuccess hasOnError st.errors data outcome).errors }

/-- The controller state after a sequence of events on a fresh
controller. -/
def run (sch : Schema) (hasOnSuccess hasOnError : Bool) (events : List (Event α)) : HookState :=
  events.foldl (step sch hasOnSuccess hasOnError) initState

/-- The derived values recomputed on every render from the state cells:
`isValid = Object.keys(errors).length === 0` and
`buttonDisabled = isPending || !isValid`. -/
structure Snapshot where
  pending : Bool
  errors : Errors
  isValid : Bool
  buttonDisabled : Bool
deriving DecidableEq

/-- One rendered snapshot of the hook's return value, computed from the
pending flag and the errors cell exactly as the hook body does. -/
def render (pending : Bool) (errors : Errors) : Snapshot :=
  let isValid : Bool := (errorKeys errors).length == 0
  { pending := pending
    errors := errors
    isValid := isValid
    buttonDisabled := pending || !isValid }

/-! ### Concrete fixtures

Concrete instances of the validator capability, mirroring the schemas of
the repository's own docs and tests (`z.string().min(1, "Name is
required")` on a field `name`). -/

/-- Validator `z.string().min(1, "Name is required")`: rejects the empty string
(`too_small`), non-strings and missing values (`invalid_type`). -/
def nonEmptyString : FieldValidator :=
  ⟨fun v =>
    match v with
    | .str s => if s = "" then [⟨[], "Name is required", "too_small"⟩] else []
    | .num _ => [⟨[], "Expected string, received number", "invalid_type"⟩]
    | .undefinedV => [⟨[], "Required", "invalid_type"⟩]⟩

/-- The schema of the repository's test suite:
`z.object({name: z.string().min(1, "Name is required")})`. -/
def exSchema : Schema :=
  ⟨[("name", nonEmptyString)]⟩

/-- A validator whose custom failure message is the empty string (zod
permits `z.string().min(1, "")`). -/
def emptyMsgString : FieldValidator :=
  ⟨fun v =>
    match v with
    | .str s => if s = "" then [⟨[], "", "too_small"⟩] else []
    | _ => [⟨[], "", "invalid_type"⟩]⟩

/-- An object schema with one field `f` whose validator reports an
empty-string message. -/
def emptyMsgSchema : Schema :=
  ⟨[("f", emptyMsgString)]⟩

/-! ### Lemmas on the errors object -/

theorem lastLookup_append (l₁ l₂ : List (String × α)) (k : String) :
    lastLookup (l₁ ++ l₂) k =
      match lastLookup l₂ k with
      | some v => some v
      | none => lastLookup l₁ k := by
  induction l₁ with
  | nil => cases h : lastLookup l₂ k <;> simp [lastLookup, h]
  | cons p ps ih =>
    simp only [List.cons_append, lastLookup, List.append_eq]
    rw [ih]
    cases lastLookup l₂ k <;> cases lastLookup ps k <;> simp

theorem getFieldError_eraseKey_self (l : Errors) (k : String) :
    getFieldError (eraseKey l k) k = none := by
  induction l with
  | nil => rfl
  | cons p ps ih =>
    simp only [eraseKey, List.filter_cons] at ih ⊢
    by_cases hp : p.1 = k
    · rw [if_neg (by simp [hp])]
      exact ih
    · rw [if_pos (by simp [hp])]
      simp only [getFieldError, lastLookup] at ih ⊢
      rw [ih]
      simp [hp]

theorem getFieldError_eraseKey_ne (l : Errors) (k k' : String) (h : k' ≠ k) :
    getFieldError (eraseKey l k) k' = getFieldError l k' := by
  induction l with
  | nil => rfl
  | cons p ps ih =>
    simp only [eraseKey, List.filter_cons] at ih ⊢
    by_cases hp : p.1 = k
    · have hpk' : ¬p.1 = k' := by rw [hp]; exact fun he => h he.symm
      rw [if_neg (by simp [hp])]
      simp only [getFieldError, lastLookup] at ih ⊢
      rw [ih]
      cases lastLookup ps k' <;> simp [hpk']
    · rw [if_pos (by simp [hp])]
      simp only [getFieldError, lastLookup] at ih ⊢
      rw [ih]

theorem getFieldError_setKey_self (l : Errors) (k : String) (v : FieldError) :
    getFieldError (setKey l k v) k = some v := by
  simp only [getFieldError, setKey, lastLookup_append]
  simp [lastLookup]

theorem getFieldError_setKey_ne (l : Errors) (k k' : String) (v : FieldError) (h : k' ≠ k) :
    getFieldError (setKey l k v) k' = getFieldError l k' := by
  have h1 := getFieldError_eraseKey_ne l k k' h
  simp only [getFieldError] at h1
  simp only [getFieldError, setKey, lastLookup_append]
  simp only [lastLookup, if_neg (show ¬(k = k') from fun he => h he.symm)]
  rw [h1]

theorem mem_errorKeys_eraseKey (l : Errors) (k k' : String) :
    k' ∈ errorKeys (eraseKey l k) ↔ k' ∈ errorKeys l ∧ k' ≠ k := by
  simp only [errorKeys, eraseKey, List.mem_map, List.mem_filter]
  constructor
  · rintro ⟨p, ⟨hp, hcond⟩, rfl⟩
    refine ⟨⟨p, hp, rfl⟩, ?_⟩
    simpa using hcond
  · rintro ⟨⟨p, hp, rfl⟩, hne⟩
    exact ⟨p, ⟨hp, by simpa using hne⟩, rfl⟩

theorem mem_errorKeys_setKey (l : Errors) (k k' : String) (v : FieldError) :
    k' ∈ errorKeys (setKey l k v) ↔ k' = k ∨ k' ∈ errorKeys l := by
  simp only [setKey, errorKeys, List.map_append, List.mem_append, List.map_cons,
    List.map_nil, List.mem_singleton]
  rw [show (List.map (·.1) (eraseKey l k) = errorKeys (eraseKey l k)) from rfl]
  rw [mem_errorKeys_eraseKey]
  constructor
  · rintro (⟨hm, _⟩ | rfl)
    · exact Or.inr hm
    · exact Or.inl rfl
  · rintro (rfl | hm)
    · exact Or.inr rfl
    · by_cases hk : k' = k
      · exact Or.inr hk
      · exact Or.inl ⟨hm, hk⟩

theorem eraseKey_eraseKey (l : Errors) (k : String) :
    eraseKey (eraseKey l k) k = eraseKey l k := by
  simp only [eraseKey, List.filter_filter]
  apply List.filter_congr
  intro p _
  cases h : decide (p.1 = k) <;> simp

theorem eraseKey_setKey (l : Errors) (k : String) (v : FieldError) :
    eraseKey (setKey l k v) k = eraseKey l k := by
  simp only [setKey, eraseKey, List.filter_append]
  rw [show List.filter (fun p => !decide (p.1 = k)) [(k, v)] = [] by simp]
  rw [show List.filter (fun p => !decide (p.1 = k)) (List.filter (fun p => !decide (p.1 = k)) l)
        = eraseKey (eraseKey l k) k from rfl]
  simp [eraseKey_eraseKey, eraseKey]

theorem setKey_setKey (l : Errors) (k : String) (v : FieldError) :
    setKey (setKey l k v) k v = setKey l k v := by
  show eraseKey (setKey l k v) k ++ [(k, v)] = setKey l k v
  rw [eraseKey_setKey]
  rfl

/-! ### Lemmas on the schema capability -/

theorem shapeLookup_mem (sch : Schema) (n : String) (fv : FieldValidator)
    (h : sch.shapeLookup n = some fv) : n ∈ sch.fieldNames := by
  obtain ⟨shape⟩ := sch
  simp only [Schema.shapeLookup, Schema.fieldNames] at *
  induction shape with
  | nil => simp [List.lookup] at h
  | cons p ps ih =>
    simp only [List.lookup] at h
    by_cases hp : n == p.1
    · simp only [List.map_cons, List.mem_cons]
      exact Or.inl (by simpa using hp)
    · simp only [Bool.not_eq_true] at hp
      rw [hp] at h
      simp only [List.map_cons, List.mem_cons]
      exact Or.inr (ih h)

theorem mem_parseIssues (sch : Schema) (get : String → JSValue) (i : Issue)
    (h : i ∈ sch.parseIssues get) :
    ∃ n ∈ sch.fieldNames, ∃ j : Issue, i = prependPath n j := by
  simp only [Schema.parseIssues, List.mem_flatMap, List.mem_map] at h
  obtain ⟨p, hp, j, _, rfl⟩ := h
  exact ⟨p.1, List.mem_map_of_mem (·.1) hp, j, rfl⟩

/-! ### Lemmas on validateField -/

theorem validateField_no_validator (sch : Schema) (name : String) (value : JSValue)
    (errors : Errors) (h : sch.shapeLookup name = none) :
    validateField sch name value errors = errors := by
  simp [validateField, h]

theorem validateField_ok (sch : Schema) (name : String) (value : JSValue)
    (errors : Errors) (fv : FieldValidator) (h : sch.shapeLookup name = some fv)
    (hc : fv.check value = []) :
    validateField sch name value errors = eraseKey errors name := by
  simp [validateField, h, hc]

theorem validateField_fail (sch : Schema) (name : String) (value : JSValue)
    (errors : Errors) (fv : FieldValidator) (i : Issue) (is : List Issue)
    (h : sch.shapeLookup name = some fv) (hc : fv.check value = i :: is) :
    validateField sch name value errors =
      setKey errors name ⟨jsOr i.message "Invalid value", jsOr i.code "invalid"⟩ := by
  simp [validateField, h, hc]

theorem validateField_frame (sch : Schema) (name : String) (value : JSValue)
    (errors : Errors) (k : String) (h : k ≠ name) :
    getFieldError (validateField sch name value errors) k = getFieldError errors k := by
  cases hsl : sch.shapeLookup name with
  | none => rw [validateField_no_validator sch name value errors hsl]
  | some fv =>
    cases hc : fv.check value with
    | nil =>
      rw [validateField_ok sch name value errors fv hsl hc]
      exact getFieldError_eraseKey_ne errors name k h
    | cons i is =>
      rw [validateField_fail sch name value errors fv i is hsl hc]
      exact getFieldError_setKey_ne errors name k _ h

theorem validateField_idem (sch : Schema) (name : String) (value : JSValue)
    (errors : Errors) :
    validateField sch name value (validateField sch name value errors) =
      validateField sch name value errors := by
  cases hsl : sch.shapeLookup name with
  | none => rw [validateField_no_validator sch name value _ hsl]
  | some fv =>
    cases hc : fv.check value with
    | nil =>
      rw [validateField_ok sch name value errors fv hsl hc,
        validateField_ok sch name value _ fv hsl hc]
      exact eraseKey_eraseKey errors name
    | cons i is =>
      rw [validateField_fail sch name value errors fv i is hsl hc,
        validateField_fail sch name value _ fv i is hsl hc]
      exact setKey_setKey errors name _

theorem mem_errorKeys_validateField (sch : Schema) (name : String) (value : JSValue)
    (errors : Errors) (k : String) (h : k ∈ errorKeys (validateField sch name value errors)) :
    k ∈ errorKeys errors ∨ (k = name ∧ name ∈ sch.fieldNames) := by
  cases hsl : sch.shapeLookup name with
  | none =>
    rw [validateField_no_validator sch name value errors hsl] at h
    exact Or.inl h
  | some fv =>
    cases hc : fv.check value with
    | nil =>
      rw [validateField_ok sch name value errors fv hsl hc] at h
      exact Or.inl ((mem_errorKeys_eraseKey errors name k).mp h).1
    | cons i is =>
      rw [validateField_fail sch name value errors fv i is hsl hc] at h
      rcases (mem_errorKeys_setKey errors name k _).mp h with heq | hm
      · exact Or.inr ⟨heq, shapeLookup_mem sch name fv hsl⟩
      · exact Or.inl hm

/-! ### Lemmas on formFieldErrors -/

theorem addIssue_resolved (acc : Errors) (i : Issue) :
    addIssue acc i =
      match resolvedField i with
      | none => acc
      | some n => setKey acc n ⟨i.message, i.code⟩ := by
  unfold addIssue resolvedField
  cases i.path with
  | nil => rfl
  | cons n rest =>
    by_cases h : n = "" <;> simp [h]

theorem foldl_addIssue_mem (iss : List Issue) (acc : Errors) (k : String) :
    k ∈ errorKeys (iss.foldl addIssue acc) ↔
      (∃ i ∈ iss, resolvedField i = some k) ∨ k ∈ errorKeys acc := by
  induction iss generalizing acc with
  | nil => simp
  | cons i is ih =>
    simp only [List.foldl_cons, ih, List.mem_cons]
    rw [addIssue_resolved]
    cases hr : resolvedField i with
    | none =>
      constructor
      · rintro (⟨j, hj, hjk⟩ | hm)
        · exact Or.inl ⟨j, Or.inr hj, hjk⟩
        · exact Or.inr hm
      · rintro (⟨j, rfl | hj, hjk⟩ | hm)
        · rw [hr] at hjk; cases hjk
        · exact Or.inl ⟨j, hj, hjk⟩
        · exact Or.inr hm
    | some n =>
      rw [mem_errorKeys_setKey]
      constructor
      · rintro (⟨j, hj, hjk⟩ | rfl | hm)
        · exact Or.inl ⟨j, Or.inr hj, hjk⟩
        · exact Or.inl ⟨i, Or.inl rfl, hr⟩
        · exact Or.inr hm
      · rintro (⟨j, rfl | hj, hjk⟩ | hm)
        · rw [hr] at hjk
          exact Or.inr (Or.inl (by cases hjk; rfl))
        · exact Or.inl ⟨j, hj, hjk⟩
        · exact Or.inr (Or.inr hm)

theorem foldl_addIssue_val (iss : List Issue) (acc : Errors) (k : String) (fe : FieldError)
    (h : getFieldError (iss.foldl addIssue acc) k = some fe) :
    (∃ i ∈ iss, resolvedField i = some k ∧ fe = ⟨i.message, i.code⟩) ∨
      getFieldError acc k = some fe := by
  induction iss generalizing acc with
  | nil => exact Or.inr h
  | cons i is ih =>
    simp only [List.foldl_cons] at h
    rcases ih (addIssue acc i) h with ⟨j, hj, hjk, hfe⟩ | hacc
    · exact Or.inl ⟨j, List.mem_cons_of_mem i hj, hjk, hfe⟩
    · rw [addIssue_resolved] at hacc
      cases hr : resolvedField i with
      | none => rw [hr] at hacc; exact Or.inr hacc
      | some n =>
        rw [hr] at hacc
        by_cases hk : k = n
        · subst hk
          rw [getFieldError_setKey_self] at hacc
          exact Or.inl ⟨i, List.mem_cons_self i is, hr, (Option.some_inj.mp hacc).symm⟩
        · rw [getFieldError_setKey_ne acc n k _ hk] at hacc
          exact Or.inr hacc

theorem mem_errorKeys_formFieldErrors (iss : List Issue) (k : String) :
    k ∈ errorKeys (formFieldErrors iss) ↔ ∃ i ∈ iss, resolvedField i = some k := by
  unfold formFieldErrors
  rw [foldl_addIssue_mem]
  simp [errorKeys]

theorem getFieldError_formFieldErrors (iss : List Issue) (k : String) (fe : FieldError)
    (h : getFieldError (formFieldErrors iss) k = some fe) :
    ∃ i ∈ iss, resolvedField i = some k ∧ fe = ⟨i.message, i.code⟩ := by
  rcases foldl_addIssue_val iss [] k fe h with hl | hr
  · exact hl
  · cases hr

theorem resolvedField_prependPath (n : String) (j : Issue) :
    resolvedField (prependPath n j) = if n = "" then none else some n := by
  simp [resolvedField, prependPath]

/-! ### Equation lemmas for the submission paths -/

theorem enhancedFormAction_eq_ok {α : Type} (sch : Schema) (hS hE : Bool) (e0 : Errors)
    (raw : List (String × String)) (outcome : Except JSError α)
    (h : sch.parseIssues (fromEntries raw) = []) :
    enhancedFormAction sch hS hE e0 raw outcome =
      { errors := []
        transitionStarted := true
        pendingDuring := true
        pendingAfter := false
        actionInvoked := true
        successCalls := (transitionCalls hS hE outcome).1
        errorCalls := (transitionCalls hS hE outcome).2 } := by
  simp [enhancedFormAction, h]

theorem enhancedFormAction_eq_fail {α : Type} (sch : Schema) (hS hE : Bool) (e0 : Errors)
    (raw : List (String × String)) (outcome : Except JSError α) (i : Issue) (is : List Issue)
    (h : sch.parseIssues (fromEntries raw) = i :: is) :
    enhancedFormAction sch hS hE e0 raw outcome =
      { errors := formFieldErrors (i :: is)
        transitionStarted := false
        pendingDuring := false
        pendingAfter := false
        actionInvoked := false
        successCalls := []
        errorCalls := [] } := by
  simp [enhancedFormAction, h]

theorem executeAction_eq_ok {α : Type} (sch : Schema) (hS hE : Bool) (e0 : Errors)
    (data : Option (List (String × JSValue))) (outcome : Except JSError α)
    (h : executeValidationIssues sch data = []) :
    executeAction sch hS hE e0 data outcome =
      { errors := e0
        transitionStarted := true
        pendingDuring := true
        pendingAfter := false
        actionInvoked := true
        successCalls := (transitionCalls hS hE outcome).1
        errorCalls := (transitionCalls hS hE outcome).2 } := by
  simp [executeAction, h]

theorem executeAction_eq_fail {α : Type} (sch : Schema) (hS hE : Bool) (e0 : Errors)
    (data : Option (List (String × JSValue))) (outcome : Except JSError α)
    (i : Issue) (is : List Issue)
    (h : executeValidationIssues sch data = i :: is) :
    executeAction sch hS hE e0 data outcome =
      { errors := e0
        transitionStarted := false
        pendingDuring := false
        pendingAfter := false
        actionInvoked := false
        successCalls := []
        errorCalls := if hE then [.error (joinMessages (i :: is))] else [] } := by
  simp [executeAction, h]

/-! ### Invariant machinery for reachable states -/

theorem errorKeys_formFieldErrors_subset (sch : Schema) (get : String → JSValue)
    (iss : List Issue) (h : sch.parseIssues get = iss) :
    ∀ k ∈ errorKeys (formFieldErrors iss), k ∈ sch.fieldNames := by
  intro k hk
  obtain ⟨i, hi, hres⟩ := (mem_errorKeys_formFieldErrors iss k).mp hk
  rw [← h] at hi
  obtain ⟨n, hn, j, rfl⟩ := mem_parseIssues sch get i hi
  rw [resolvedField_prependPath] at hres
  by_cases hne : n = ""
  · rw [if_pos hne] at hres; cases hres
  · rw [if_neg hne] at hres
    cases hres
    exact hn

theorem errorKeys_step_subset {α : Type} (sch : Schema) (hS hE : Bool)
    (st : HookState) (e : Event α)
    (h : ∀ k ∈ errorKeys st.errors, k ∈ sch.fieldNames) :
    ∀ k ∈ errorKeys (step sch hS hE st e).errors, k ∈ sch.fieldNames := by
  cases e with
  | change n v =>
    intro k hk
    simp only [step, onChange] at hk
    by_cases ht : n ∈ st.touched
    · rw [if_pos ht] at hk
      rcases mem_errorKeys_validateField sch n (.str v) st.errors k hk with hm | ⟨heq, hmem⟩
      · exact h k hm
      · rw [heq]; exact hmem
    · rw [if_neg ht] at hk
      exact h k hk
  | blur n v =>
    intro k hk
    simp only [step, onBlur] at hk
    rcases mem_errorKeys_validateField sch n (.str v) st.errors k hk with hm | ⟨heq, hmem⟩
    · exact h k hm
    · rw [heq]; exact hmem
  | formSubmit raw outcome =>
    intro k hk
    simp only [step] at hk
    cases hpi : sch.parseIssues (fromEntries raw) with
    | nil => rw [enhancedFormAction_eq_ok sch hS hE st.errors raw outcome hpi] at hk; cases hk
    | cons i is =>
      rw [enhancedFormAction_eq_fail sch hS hE st.errors raw outcome i is hpi] at hk
      exact errorKeys_formFieldErrors_subset sch (fromEntries raw) (i :: is) hpi k hk
  | execute data outcome =>
    intro k hk
    simp only [step] at hk
    cases hpi : executeValidationIssues sch data with
    | nil =>
      rw [executeAction_eq_ok sch hS hE st.errors data outcome hpi] at hk
      exact h k hk
    | cons i is =>
      rw [executeAction_eq_fail sch hS hE st.errors data outcome i is hpi] at hk
      exact h k hk

theorem errorKeys_foldl_subset {α : Type} (sch : Schema) (hS hE : Bool)
    (events : List (Event α)) (st : HookState)
    (h : ∀ k ∈ errorKeys st.errors, k ∈ sch.fieldNames) :
    ∀ k ∈ errorKeys (events.foldl (step sch hS hE) st).errors, k ∈ sch.fieldNames := by
  induction events generalizing st with
  | nil => exact h
  | cons e es ih =>
    simp only [List.foldl_cons]
    exact ih (step sch hS hE st e) (errorKeys_step_subset sch hS hE st e h)

/-! ### The derived render values -/

theorem render_isValid_iff (pending : Bool) (errors : Errors) :
    (render pending errors).isValid = true ↔ errors = [] := by
  simp [render, errorKeys, List.length_eq_zero]

/-! ### The claims -/

/-- C1 counterexample: with the schema `{name: non-empty string}` and a
stale error entry for `name` (produced by blurring the empty field),
`executeAction({name: "Alice"})` passes validation, starts the transition
and reports the fulfilled result to `onSuccess` — but the errors state
still holds the stale entry: it is NOT cleared. -/
theorem C1_counterexample :
    (executeAction exSchema true true (onBlur exSchema "name" "" initState).errors
        (some [("name", JSValue.str "Alice")]) (Except.ok (0 : Nat))).transitionStarted = true ∧
    (executeAction exSchema true true (onBlur exSchema "name" "" initState).errors
        (some [("name", JSValue.str "Alice")]) (Except.ok (0 : Nat))).successCalls = [0] ∧
    (executeAction exSchema true true (onBlur exSchema "name" "" initState).errors
        (some [("name", JSValue.str "Alice")]) (Except.ok (0 : Nat))).errors
      = [("name", ⟨"Name is required", "too_small"⟩)] := by
  decide

/-- C1 (amended): for a schema and a data record that passes the schema's
validation and a handler that fulfills, `executeAction(data)` leaves the
errors state unchanged (it does not clear it), sets the pending flag true
for the duration of the action and false when it settles, and invokes
`onSuccess` exactly once with the handler's result. -/
theorem C1_executeAction_success {α : Type} (sch : Schema) (hE : Bool) (errors0 : Errors)
    (data : List (String × JSValue)) (v : α)
    (hval : sch.parseIssues (recordGet data) = []) :
    (executeAction sch true hE errors0 (some data) (Except.ok v)).errors = errors0 ∧
    (executeAction sch true hE errors0 (some data) (Except.ok v)).transitionStarted = true ∧
    (executeAction sch true hE errors0 (some data) (Except.ok v)).pendingDuring = true ∧
    (executeAction sch true hE errors0 (some data) (Except.ok v)).pendingAfter = false ∧
    (executeAction sch true hE errors0 (some data) (Except.ok v)).successCalls = [v] := by
  have h : executeValidationIssues sch (some data) = [] := hval
  rw [executeAction_eq_ok sch true hE errors0 (some data) (Except.ok v) h]
  simp [transitionCalls]

/-- Witness for C1: the amended theorem at the schema
`{name: z.string().min(1)}`, data `{name: "Alice"}`, and a stale error
entry. -/
theorem C1_witness :
    exSchema.parseIssues (recordGet [("name", JSValue.str "Alice")]) = [] ∧
    (executeAction exSchema true true [("name", ⟨"Name is required", "too_small"⟩)]
        (some [("name", JSValue.str "Alice")]) (Except.ok (7 : Nat))).errors
      = [("name", ⟨"Name is required", "too_small"⟩)] ∧
    (executeAction exSchema true true [("name", ⟨"Name is required", "too_small"⟩)]
        (some [("name", JSValue.str "Alice")]) (Except.ok (7 : Nat))).successCalls = [7] := by
  have h := C1_executeAction_success exSchema true
    [("name", ⟨"Name is required", "too_small"⟩)] [("name", JSValue.str "Alice")]
    (7 : Nat) (by decide)
  exact ⟨by decide, h.1, h.2.2.2.2⟩

/-- C2: `formAction` validates the whole converted mapping; on failure it
replaces the entire errors state with one `FieldError` per failing field,
keyed by each issue's first path segment (issues without a resolvable
field name are dropped), starts no transition and calls no callback; on
success it clears the errors state, runs the action in a transition and
routes fulfillment to `onSuccess` and rejection to `onError` (each only
if provided).  The result never depends on the previous errors state. -/
theorem C2_formAction {α : Type} (sch : Schema) (hS hE : Bool) (errors0 : Errors)
    (raw : List (String × String)) (outcome : Except JSError α) :
    (∀ i is, sch.parseIssues (fromEntries raw) = i :: is →
      (enhancedFormAction sch hS hE errors0 raw outcome).errors = formFieldErrors (i :: is) ∧
      (∀ k, k ∈ errorKeys (enhancedFormAction sch hS hE errors0 raw outcome).errors ↔
        ∃ j ∈ i :: is, resolvedField j = some k) ∧
      (∀ k fe, getFieldError (enhancedFormAction sch hS hE errors0 raw outcome).errors k = some fe →
        ∃ j ∈ i :: is, resolvedField j = some k ∧ fe = ⟨j.message, j.code⟩) ∧
      (enhancedFormAction sch hS hE errors0 raw outcome).transitionStarted = false ∧
      (enhancedFormAction sch hS hE errors0 raw outcome).actionInvoked = false ∧
      (enhancedFormAction sch hS hE errors0 raw outcome).successCalls = [] ∧
      (enhancedFormAction sch hS hE errors0 raw outcome).errorCalls = []) ∧
    (sch.parseIssues (fromEntries raw) = [] →
      (enhancedFormAction sch hS hE errors0 raw outcome).errors = [] ∧
      (enhancedFormAction sch hS hE errors0 raw outcome).transitionStarted = true ∧
      (enhancedFormAction sch hS hE errors0 raw outcome).actionInvoked = true ∧
      (enhancedFormAction sch hS hE errors0 raw outcome).successCalls =
        (match outcome with
         | .ok v => if hS then [v] else []
         | .error _ => []) ∧
      (enhancedFormAction sch hS hE errors0 raw outcome).errorCalls =
        (match outcome with
         | .ok _ => []
         | .error e => if hE then [e] else [])) ∧
    (∀ e0' : Errors,
      enhancedFormAction sch hS hE e0' raw outcome =
        enhancedFormAction sch hS hE errors0 raw outcome) := by
  refine ⟨?_, ?_, fun e0' => rfl⟩
  · intro i is h
    rw [enhancedFormAction_eq_fail sch hS hE errors0 raw outcome i is h]
    exact ⟨rfl, fun k => mem_errorKeys_formFieldErrors (i :: is) k,
      fun k fe hfe => getFieldError_formFieldErrors (i :: is) k fe hfe,
      rfl, rfl, rfl, rfl⟩
  · intro h
    rw [enhancedFormAction_eq_ok sch hS hE errors0 raw outcome h]
    refine ⟨rfl, rfl, rfl, ?_, ?_⟩ <;> cases outcome <;> simp [transitionCalls]

/-- Witness for C2: submitting an empty `name` with a stale unrelated
errors state sets `errors.name` and does not invoke the action; the
fail branch hypothesis is discharged at a concrete issue list. -/
theorem C2_witness :
    exSchema.parseIssues (fromEntries [("name", "")])
      = [⟨["name"], "Name is required", "too_small"⟩] ∧
    (enhancedFormAction exSchema true true [("x", ⟨"stale", "s"⟩)] [("name", "")]
        (Except.ok (0 : Nat))).errors = [("name", ⟨"Name is required", "too_small"⟩)] ∧
    (enhancedFormAction exSchema true true [("x", ⟨"stale", "s"⟩)] [("name", "")]
        (Except.ok (0 : Nat))).actionInvoked = false := by
  have hv : exSchema.parseIssues (fromEntries [("name", "")])
      = [⟨["name"], "Name is required", "too_small"⟩] := by decide
  have h := (C2_formAction exSchema true true [("x", ⟨"stale", "s"⟩)] [("name", "")]
    (Except.ok (0 : Nat))).1 ⟨["name"], "Name is required", "too_small"⟩ [] hv
  exact ⟨hv, h.1.trans (by decide), h.2.2.2.2.1⟩

/-- C3 counterexample: with data `{name: 5}` and schema
`{name: string().min(1)}`, the synthetic stringified payload
`{name: "5"}` passes schema validation — yet `executeAction` treats
validation as failed (no transition, `onError` called with the raw
record's issue), because the code validates `dataToSubmit = data`, the
raw record, not the synthetic collection. -/
theorem C3_counterexample :
    exSchema.parseIssues (fromEntries (syntheticFormData [("name", JSValue.num 5)])) = [] ∧
    (executeAction exSchema true true [] (some [("name", JSValue.num 5)])
        (Except.ok (0 : Nat))).transitionStarted = false ∧
    (executeAction exSchema true true [] (some [("name", JSValue.num 5)])
        (Except.ok (0 : Nat))).errorCalls
      = [JSError.error "Expected string, received number"] := by
  decide

/-- C3 (amended): `executeAction` builds the synthetic stringified
collection only as the action's input; what it validates is the raw data
record itself (the empty collection when no data is given).  On
validation failure it calls `onError` with a single error whose message
joins all issue messages with ", " (not field-scoped), starts no
transition, and stores nothing in the errors state. -/
theorem C3_executeAction_validation {α : Type} (sch : Schema) (hS : Bool) (errors0 : Errors)
    (data : Option (List (String × JSValue))) (outcome : Except JSError α) :
    (∀ d, data = some d →
      executeValidationIssues sch data = sch.parseIssues (recordGet d)) ∧
    (data = none →
      executeValidationIssues sch data = sch.parseIssues (fun _ => JSValue.undefinedV)) ∧
    (∀ i is, executeValidationIssues sch data = i :: is →
      (executeAction sch hS true errors0 data outcome).errorCalls
        = [JSError.error (joinMessages (i :: is))] ∧
      (executeAction sch hS true errors0 data outcome).transitionStarted = false ∧
      (executeAction sch hS true errors0 data outcome).actionInvoked = false ∧
      (executeAction sch hS true errors0 data outcome).successCalls = [] ∧
      (executeAction sch hS true errors0 data outcome).errors = errors0) := by
  refine ⟨?_, ?_, ?_⟩
  · rintro d rfl; rfl
  · rintro rfl; rfl
  · intro i is h
    rw [executeAction_eq_fail sch hS true errors0 data outcome i is h]
    exact ⟨rfl, rfl, rfl, rfl, rfl⟩

/-- Witness for C3: `executeAction()` with no data validates the empty
payload, which fails the required `name`, so `onError` receives the
joined message "Required" and no transition starts. -/
theorem C3_witness :
    executeValidationIssues exSchema none = [⟨["name"], "Required", "invalid_type"⟩] ∧
    (executeAction exSchema true true [] none (Except.ok (0 : Nat))).errorCalls
      = [JSError.error "Required"] ∧
    (executeAction exSchema true true [] none (Except.ok (0 : Nat))).transitionStarted
      = false := by
  have h := (C3_executeAction_validation exSchema true [] none (Except.ok (0 : Nat))).2.2
    ⟨["name"], "Required", "invalid_type"⟩ [] (by decide)
  exact ⟨by decide, h.1.trans (by decide), h.2.1⟩

/-- C4 counterexample: a handler that rejects with a `ZodError` (e.g. one
doing its own zod parsing internally) does NOT propagate unchanged: the
`catch` of `createServerAction` converts any `ZodError` — the handler's
included — into `new Error(joined messages)`. -/
theorem C4_counterexample :
    createServerAction exSchema
        (fun _ => (Except.error (JSError.zodError [⟨[], "boom", "custom"⟩]) : Except JSError Nat))
        (0 : Nat) [("name", "Alice")]
      = Except.error (JSError.error "boom") ∧
    (Except.error (JSError.error "boom") : Except JSError Nat)
      ≠ Except.error (JSError.zodError [⟨[], "boom", "custom"⟩]) := by
  decide

/-- C4 (amended): after successful validation, an error produced by the
handler propagates to the caller unchanged unless it is a `ZodError`; a
handler-produced `ZodError` is replaced by an `Error` whose message joins
that error's issue messages with ", ". -/
theorem C4_handler_error {α β : Type} (sch : Schema)
    (handler : (String → JSValue) → Except JSError α) (prev : β)
    (raw : List (String × String)) (e : JSError)
    (hval : sch.parseIssues (fromEntries raw) = [])
    (hh : handler (fromEntries raw) = Except.error e) :
    createServerAction sch handler prev raw =
      (match e with
       | .zodError issues => Except.error (JSError.error (joinMessages issues))
       | _ => Except.error e) := by
  simp only [createServerAction, createServerActionRun, hval, hh]
  cases e <;> rfl

/-- Witness for C4: a non-`ZodError` rejection (tagged "ENOENT")
propagates unchanged through the built action. -/
theorem C4_witness :
    exSchema.parseIssues (fromEntries [("name", "Alice")]) = [] ∧
    createServerAction exSchema
        (fun _ => (Except.error (JSError.other "ENOENT") : Except JSError Nat))
        (0 : Nat) [("name", "Alice")]
      = Except.error (JSError.other "ENOENT") := by
  refine ⟨by decide, ?_⟩
  exact C4_handler_error exSchema
    (fun _ => (Except.error (JSError.other "ENOENT") : Except JSError Nat))
    (0 : Nat) [("name", "Alice")] (JSError.other "ENOENT") (by decide) rfl

/-- C5: when the converted mapping fails schema validation, the action
built by `createServerAction` fails with an error whose message joins all
issue messages with ", ", and the handler is never invoked (second
component `false`, for every handler). -/
theorem C5_validation_failure {α β : Type} (sch : Schema)
    (handler : (String → JSValue) → Except JSError α) (prev : β)
    (raw : List (String × String)) (i : Issue) (is : List Issue)
    (hval : sch.parseIssues (fromEntries raw) = i :: is) :
    createServerActionRun sch handler raw =
      (Except.error (JSError.error (String.intercalate ", " ((i :: is).map Issue.message))),
        false) ∧
    createServerAction sch handler prev raw =
      Except.error (JSError.error (String.intercalate ", " ((i :: is).map Issue.message))) := by
  have h1 : createServerActionRun sch handler raw =
      (Except.error (JSError.error (String.intercalate ", " ((i :: is).map Issue.message))),
        false) := by
    simp only [createServerActionRun, hval, joinMessages]
  exact ⟨h1, by simp only [createServerAction, h1]⟩

/-- Witness for C5: empty `name` input rejects with the joined message
"Name is required" and the handler is not called. -/
theorem C5_witness :
    exSchema.parseIssues (fromEntries [("name", "")])
      = [⟨["name"], "Name is required", "too_small"⟩] ∧
    createServerActionRun exSchema (fun _ => (Except.ok (0 : Nat))) [("name", "")]
      = (Except.error (JSError.error "Name is required"), false) := by
  refine ⟨by decide, ?_⟩
  have h := (C5_validation_failure exSchema (fun _ => (Except.ok (0 : Nat))) (0 : Nat)
    [("name", "")] ⟨["name"], "Name is required", "too_small"⟩ [] (by decide)).1
  exact h.trans (by decide)

/-- C6: changing an untouched field leaves the errors state unchanged (so
it never creates an error entry for that field, however invalid the
value); blurring adds the field to the touched set idempotently and then
re-validates it (which may populate its error entry); once a field is
touched, every change re-validates it. -/
theorem C6_touched_gating (sch : Schema) (st : HookState) (name value : String) :
    (name ∉ st.touched → (onChange sch name value st).errors = st.errors) ∧
    (name ∉ st.touched → getFieldError st.errors name = none →
      getFieldError (onChange sch name value st).errors name = none) ∧
    name ∈ (onBlur sch name value st).touched ∧
    (name ∈ st.touched → (onBlur sch name value st).touched = st.touched) ∧
    (onBlur sch name value st).errors = validateField sch name (JSValue.str value) st.errors ∧
    (name ∈ st.touched →
      (onChange sch name value st).errors = validateField sch name (JSValue.str value) st.errors) := by
  refine ⟨?_, ?_, ?_, ?_, rfl, ?_⟩
  · intro h; simp [onChange, h]
  · intro h hn
    have he : (onChange sch name value st).errors = st.errors := by simp [onChange, h]
    rw [he]; exact hn
  · simp only [onBlur, addTouched]
    by_cases h : name ∈ st.touched
    · rw [if_pos h]; exact h
    · rw [if_neg h]; simp
  · intro h; simp [onBlur, addTouched, h]
  · intro h; simp [onChange, h]

/-- Witness for C6: on the fresh controller, changing `name` to the (very
invalid) empty string stores no error, while blurring it immediately
stores one. -/
theorem C6_witness :
    ("name" ∉ initState.touched) ∧
    (onChange exSchema "name" "" initState).errors = [] ∧
    (onBlur exSchema "name" "" initState).errors
      = [("name", ⟨"Name is required", "too_small"⟩)] ∧
    "name" ∈ (onBlur exSchema "name" "" initState).touched := by
  have h := C6_touched_gating exSchema initState "name" ""
  refine ⟨by decide, ?_, ?_, h.2.2.1⟩
  · exact (h.1 (by decide)).trans (by decide)
  · exact h.2.2.2.2.1.trans (by decide)

/-- C7 counterexample: a field validator reporting an issue with an empty
message (zod permits `z.string().min(1, "")`) does NOT get that message
stored: the `|| "Invalid value"` fallback replaces it, so the stored
error is not "exactly the first reported issue's message". -/
theorem C7_counterexample :
    ((emptyMsgSchema.shapeLookup "f").map fun fv => (fv.check (JSValue.str "")).map Issue.message)
      = some [""] ∧
    getFieldError (validateField emptyMsgSchema "f" (JSValue.str "") []) "f"
      = some ⟨"Invalid value", "too_small"⟩ ∧
    getFieldError (validateField emptyMsgSchema "f" (JSValue.str "") []) "f"
      ≠ some ⟨"", "too_small"⟩ := by
  decide

/-- C7 (amended): single-field validation on failure stores the first
reported issue's message and kind — substituting "Invalid value" for an
empty message and "invalid" for an empty kind; on success it removes the
field's error entry; in either case every other field's entry is
unchanged; and validating the same field twice with the same value equals
validating it once (no accumulation). -/
theorem C7_validateField_policy (sch : Schema) (name : String) (value : JSValue)
    (errors : Errors) :
    (∀ k, k ≠ name →
      getFieldError (validateField sch name value errors) k = getFieldError errors k) ∧
    (∀ fv, sch.shapeLookup name = some fv →
      (fv.check value = [] →
        getFieldError (validateField sch name value errors) name = none) ∧
      (∀ i is, fv.check value = i :: is →
        getFieldError (validateField sch name value errors) name =
          some ⟨jsOr i.message "Invalid value", jsOr i.code "invalid"⟩)) ∧
    validateField sch name value (validateField sch name value errors) =
      validateField sch name value errors := by
  refine ⟨fun k hk => validateField_frame sch name value errors k hk, ?_,
    validateField_idem sch name value errors⟩
  intro fv hfv
  constructor
  · intro hc
    rw [validateField_ok sch name value errors fv hfv hc]
    exact getFieldError_eraseKey_self errors name
  · intro i is hc
    rw [validateField_fail sch name value errors fv i is hfv hc]
    exact getFieldError_setKey_self errors name _

/-- Witness for C7: failing validation of `name` stores its first issue's
(non-empty) message, an unrelated entry `email` is untouched, and
re-validating is idempotent. -/
theorem C7_witness :
    nonEmptyString.check (JSValue.str "") = [⟨[], "Name is required", "too_small"⟩] ∧
    getFieldError (validateField exSchema "name" (JSValue.str "") []) "name"
      = some ⟨"Name is required", "too_small"⟩ ∧
    getFieldError (validateField exSchema "name" (JSValue.str "") [("email", ⟨"x", "y"⟩)]) "email"
      = some ⟨"x", "y"⟩ ∧
    validateField exSchema "name" (JSValue.str "")
        (validateField exSchema "name" (JSValue.str "") [])
      = validateField exSchema "name" (JSValue.str "") [] := by
  have h := C7_validateField_policy exSchema "name" (JSValue.str "") []
  have h2 := C7_validateField_policy exSchema "name" (JSValue.str "") [("email", ⟨"x", "y"⟩)]
  refine ⟨by decide, ?_, ?_, h.2.2⟩
  · have hs := (h.2.1 nonEmptyString rfl).2 ⟨[], "Name is required", "too_small"⟩ [] (by decide)
    exact hs.trans (by decide)
  · exact (h2.1 "email" (by decide)).trans (by decide)

/-- C8: after any sequence of change/blur events, `formAction` calls and
`executeAction` calls on one controller instance, every key of the errors
state is a field name of the schema. -/
theorem C8_errors_keys_subset {α : Type} (sch : Schema) (hS hE : Bool)
    (events : List (Event α)) :
    ∀ k ∈ errorKeys (run sch hS hE events).errors, k ∈ sch.fieldNames := by
  unfold run
  refine errorKeys_foldl_subset sch hS hE events initState ?_
  intro k hk
  simp [initState, errorKeys] at hk

/-- Witness for C8: a concrete mixed trace (blur, change, failed form
submit, programmatic submit) whose resulting error key `name` the theorem
places in the schema's field names. -/
theorem C8_witness :
    "name" ∈ errorKeys (run exSchema true true
      ([Event.blur "name" "", Event.change "name" "",
        Event.formSubmit [("name", "")] (Except.ok 0),
        Event.execute (some [("name", JSValue.str "Al")]) (Except.ok 0)]
        : List (Event Nat))).errors ∧
    "name" ∈ exSchema.fieldNames := by
  refine ⟨by decide, ?_⟩
  exact C8_errors_keys_subset exSchema true true
    ([Event.blur "name" "", Event.change "name" "",
      Event.formSubmit [("name", "")] (Except.ok 0),
      Event.execute (some [("name", JSValue.str "Al")]) (Except.ok 0)]
      : List (Event Nat)) "name" (by decide)

/-- C9: at every snapshot rendered from a reachable state (any event
trace, any pending value), `buttonDisabled` equals
`pending || !isValid`, and `isValid` is derived from the errors state as
"errors is empty" — the snapshot is computed purely from the pending flag
and errors cell, never stored. -/
theorem C9_buttonDisabled_derivation {α : Type} (sch : Schema) (hS hE : Bool)
    (events : List (Event α)) (pending : Bool) :
    (render pending (run sch hS hE events).errors).buttonDisabled
      = (pending || !(render pending (run sch hS hE events).errors).isValid) ∧
    ((render pending (run sch hS hE events).errors).isValid = true ↔
      (run sch hS hE events).errors = []) ∧
    (render pending (run sch hS hE events).errors).pending = pending ∧
    (render pending (run sch hS hE events).errors).errors = (run sch hS hE events).errors := by
  exact ⟨rfl, render_isValid_iff pending _, rfl, rfl⟩

/-- Witness for C9: after one blur that stores an error, the rendered
snapshot with `pending = false` still has the button disabled, exactly as
`pending || !isValid` dictates. -/
theorem C9_witness :
    (render false (run exSchema true true
        ([Event.blur "name" ""] : List (Event Nat))).errors).buttonDisabled = true := by
  have h := C9_buttonDisabled_derivation exSchema true true
    ([Event.blur "name" ""] : List (Event Nat)) false
  exact h.1.trans (by decide)

/-- C10: for a field name with no sub-validator in the schema's shape,
single-field validation — and therefore the change and blur handlers for
that name — leaves the errors state entirely unchanged for every value:
nothing is created and nothing is cleared. -/
theorem C10_no_subvalidator (sch : Schema) (name : String) (v : JSValue)
    (value : String) (errors : Errors) (st : HookState)
    (h : sch.shapeLookup name = none) :
    validateField sch name v errors = errors ∧
    (onChange sch name value st).errors = st.errors ∧
    (onBlur sch name value st).errors = st.errors := by
  refine ⟨validateField_no_validator sch name v errors h, ?_, ?_⟩
  · simp only [onChange]
    by_cases ht : name ∈ st.touched
    · rw [if_pos ht]
      exact validateField_no_validator sch name _ st.errors h
    · rw [if_neg ht]
  · simp only [onBlur]
    exact validateField_no_validator sch name _ st.errors h

/-- Witness for C10: `email` has no sub-validator in `exSchema`, so
validating it (with any value) changes nothing and blurring it on the
fresh controller leaves the errors state empty. -/
theorem C10_witness :
    validateField exSchema "email" (JSValue.str "not-an-email") [("name", ⟨"m", "t"⟩)]
      = [("name", ⟨"m", "t"⟩)] ∧
    (onBlur exSchema "email" "not-an-email" initState).errors = [] := by
  have h := C10_no_subvalidator exSchema "email" (JSValue.str "not-an-email")
    "not-an-email" [("name", ⟨"m", "t"⟩)] initState rfl
  exact ⟨h.1, h.2.2.trans (by decide)⟩

end Actionize
